/-
Verification development for the kernel.js client-side account-abstraction
core: the session-key permission matcher, Merkle commitment, signature
normalization, and the ECDSA / kernel-account signing pipeline.

Modelling conventions (shallow embedding of the TypeScript source):

* A viem `Hex` byte string "0x…" is modelled as the list of its hex digits
  after the "0x" prefix, each digit being a `Nat` value in 0..15 (a nibble).
  viem `concat` strips the "0x" prefixes and concatenates, which is exactly
  `List.append` in this representation.  `toLowerCase` is the identity here,
  since nibble values carry no case.
* An `Address` is modelled as its numeric value (`Nat`); the source always
  compares addresses after `toLowerCase`, so string equality of addresses
  coincides with equality of the numeric value.  `zeroAddress` is `0`.
* JavaScript `bigint` values (`value`, `valueLimit`, nonces) are `Nat`:
  they are uint256 quantities in this code and never negative.
* Fallible code (`throw`) is modelled with `Except SKError`.
* External collaborators (keccak-256, viem `encodeAbiParameters`, the
  user-operation hash and the raw ECDSA signer) are opaque function
  parameters: no claim depends on their byte-level output.
* Inside `fixSignedData` the input may be an arbitrary string, not valid
  hex, so that single function is modelled over lists of character codes
  (`Nat` Unicode code points) instead of nibbles; `hexCharsToNibs` bridges
  the two views exactly as viem `concat` does when the fixed signature is
  appended to the final payload.
-/
import Mathlib

/-- Byte strings ("0x…" hex values) as lists of nibbles (hex digit values 0..15). -/
abbrev Hexs := List Nat

/-- Addresses compared case-insensitively in the source; modelled numerically. -/
abbrev Addr := Nat

/-- The wildcard/zero address. -/
def zeroAddress : Addr := 0

/-- The 32-byte zero word `pad("0x00", \x7b size: 32 \x7d)` as 64 zero nibbles. -/
def zero32 : Hexs := List.replicate 64 0

/-- viem `pad(value, \x7b size \x7d)`: left-pad with zero nibbles to `width` nibbles
(the source never pads a value longer than the target size on the paths
modelled here). -/
def padNibsTo (width : Nat) (v : Hexs) : Hexs :=
  List.replicate (width - v.length) 0 ++ v

/-- Big-endian fixed-width nibble encoding of a number, as produced by
`pad(toHex(n), \x7b size \x7d)` for `n` within range. -/
def natToNibsFW : Nat → Nat → Hexs
  | 0, _ => []
  | w + 1, n => natToNibsFW w (n / 16) ++ [n % 16]

/-- `ParamOperator` enum from the session-key validator source. -/
inductive ParamOperator where
  | EQUAL
  | GREATER_THAN
  | LESS_THAN
  | GREATER_THAN_OR_EQUAL
  | LESS_THAN_OR_EQUAL
  | NOT_EQUAL
deriving DecidableEq, Repr

/-- `Operation` enum: `Call = 0`, `DelegateCall = 1`. -/
inductive Operation where
  | Call
  | DelegateCall
deriving DecidableEq, Repr

/-- `ExecutionRule`: validity window and usage bounds (validated on-chain). -/
structure ExecutionRule where
  validAfter : Nat
  interval : Nat
  runs : Nat
deriving DecidableEq, Repr

/-- `ParamRules`: byte offset into the ABI-encoded arguments, comparison
operator, and the fixed 32-byte parameter. -/
structure ParamRules where
  offset : Nat
  condition : ParamOperator
  param : Hexs
deriving DecidableEq, Repr

/-- A permission after the defaulting pass at validator construction
(lines 166-179 of the session-key validator source): every optional field
is filled in. -/
structure Permission where
  target : Addr
  index : Nat
  rules : List ParamRules
  sig : Hexs
  valueLimit : Nat
  executionRule : ExecutionRule
  operation : Operation
deriving DecidableEq, Repr

instance : Inhabited Permission :=
  ⟨⟨0, 0, [], [], 0, ⟨0, 0, 0⟩, Operation.Call⟩⟩

/-- A permission as supplied by the caller, before defaulting. -/
structure PermissionInput where
  target : Addr
  index : Option Nat
  rules : Option (List ParamRules)
  sig : Option Hexs
  valueLimit : Option Nat
  executionRule : Option ExecutionRule
  operation : Option Operation
deriving DecidableEq, Repr

/-- The defaulting pass over `sessionKeyData.permissions`: `valueLimit ?? 0n`,
`sig ?? pad("0x", \x7b size: 4 \x7d)`, `rules ?? []`, `index` overwritten with the
position in the list, default execution rule, `operation ?? Operation.Call`;
a missing list becomes `[]`. -/
def normalizePermissions (input : Option (List PermissionInput)) : List Permission :=
  match input with
  | none => []
  | some l =>
    l.enum.map fun ip =>
      { target := ip.2.target
        index := ip.1
        rules := ip.2.rules.getD []
        sig := ip.2.sig.getD (List.replicate 8 0)
        valueLimit := ip.2.valueLimit.getD 0
        executionRule := ip.2.executionRule.getD ⟨0, 0, 0⟩
        operation := ip.2.operation.getD Operation.Call }

/-- One call of an `executeBatch`. -/
structure BatchCall where
  target : Addr
  value : Nat
  data : Hexs
deriving DecidableEq, Repr

/-- The result of `decodeFunctionData` on the user operation's callData
against the kernel account ABI.  `other` covers both a different function
selector and a failed decode, which the source treats identically (the
`try/catch` in `findMatchingPermissions` returns `undefined`). -/
inductive DecodedCallData where
  | execute (target : Addr) (value : Nat) (data : Hexs)
  | executeBatch (calls : List BatchCall)
  | other
deriving DecidableEq, Repr

/-- Result shape of `findMatchingPermissions`: a single permission for
`execute`, a list for `executeBatch`. -/
inductive Matched where
  | single (p : Permission)
  | batch (ps : List Permission)
deriving DecidableEq, Repr

/-- `filterByOperation` (source lines 384-393): keeps a permission when its
operation equals the requested one, or when the requested operation is
`Call`. -/
def filterByOperation (permissions : List Permission) (operation : Operation) : List Permission :=
  permissions.filter fun permission =>
    permission.operation == operation || Operation.Call == operation

/-- `filterBySignature` (source lines 395-404): keeps permissions whose
(lower-cased) selector equals the given signature slice. -/
def filterBySignature (permissions : List Permission) (signature : Hexs) : List Permission :=
  permissions.filter fun permission => permission.sig == signature

/-- `getFormattedHex` (source lines 430-434): pad to a 32-byte lower-case
hex word.  The argument is already hex on every call path, so the
`isHex ? value : toHex(value)` branch is the identity. -/
def getFormattedHex (value : Hexs) : Hexs :=
  padNibsTo 64 value

/-- Lexicographic comparison of two nibble lists.  JavaScript compares the
hex strings with `<`, which is lexicographic on characters; the character
order of `0-9a-f` agrees with the nibble value order, and both operands of
every comparison in `evaluateRuleCondition` carry the same "0x" prefix and
have the same padded length, so this captures the source comparison. -/
def hexLt : Hexs → Hexs → Bool
  | [], [] => false
  | [], _ :: _ => true
  | _ :: _, [] => false
  | a :: as, b :: bs => if a < b then true else if b < a then false else hexLt as bs

/-- `evaluateRuleCondition` (source lines 436-457): compare the two padded
32-byte words with the rule's operator, via JavaScript string comparison. -/
def evaluateRuleCondition (dataParam ruleParam : Hexs) (condition : ParamOperator) : Bool :=
  match condition with
  | .EQUAL => dataParam == ruleParam
  | .GREATER_THAN => hexLt ruleParam dataParam
  | .LESS_THAN => hexLt dataParam ruleParam
  | .GREATER_THAN_OR_EQUAL => !hexLt dataParam ruleParam
  | .LESS_THAN_OR_EQUAL => !hexLt ruleParam dataParam
  | .NOT_EQUAL => dataParam != ruleParam

/-- One rule check inside `findPermissionByRule`: extract the word at hex
character positions `10 + offset*2` to `10 + offset*2 + 64` of the data
string (nibble positions `8 + offset*2` onward once the "0x" prefix is
dropped), format both sides, and evaluate the condition. -/
def rulePasses (data : Hexs) (rule : ParamRules) : Bool :=
  evaluateRuleCondition
    (getFormattedHex ((data.drop (8 + rule.offset * 2)).take 64))
    (getFormattedHex rule.param)
    rule.condition

/-- The `for … return false / return true` loop over a permission's rules. -/
def rulesPass (data : Hexs) : List ParamRules → Bool
  | [] => true
  | r :: rs => if rulePasses data r then rulesPass data rs else false

/-- `findPermissionByRule` (source lines 406-428): first permission whose
rules all pass against the call data. -/
def findPermissionByRule (permissions : List Permission) (data : Hexs) : Option Permission :=
  permissions.find? fun permission => rulesPass data permission.rules

/-- Stable insertion of a permission into a list sorted by descending
`valueLimit`: inserted after every element with an equal or larger limit. -/
def insertByValueLimitDesc (p : Permission) : List Permission → List Permission
  | [] => [p]
  | q :: qs =>
    if q.valueLimit < p.valueLimit then p :: q :: qs
    else q :: insertByValueLimitDesc p qs

/-- The `sort` call of `filterPermissions` (source lines 365-373):
JavaScript `Array.prototype.sort` is stable and the comparator orders by
descending `valueLimit` only, so the result is the stable descending sort
by `valueLimit`. -/
def sortByValueLimitDesc : List Permission → List Permission
  | [] => []
  | p :: ps => insertByValueLimitDesc p (sortByValueLimitDesc ps)

/-- The per-triple body of `filterPermissions` (source lines 330-375):
filter by target (with zero-address wildcard), check the operation filter
for emptiness, filter by selector and value limit, sort, and pick the
first permission whose rules pass.  Note the source passes
`targetPermissions`, not `operationPermissions`, to `filterBySignature`. -/
def matchTriple (permissionsList : List Permission) (target : Addr) (data : Hexs)
    (value : Nat) : Option Permission :=
  if permissionsList.isEmpty then none
  else
    let targetPermissions := permissionsList.filter fun permission =>
      permission.target == target || permission.target == zeroAddress
    if targetPermissions.isEmpty then none
    else
      let operationPermissions := filterByOperation targetPermissions Operation.Call
      if operationPermissions.isEmpty then none
      else
        let signaturePermissions := filterBySignature targetPermissions (data.take 8)
        let valueLimitPermissions := signaturePermissions.filter fun permission =>
          decide (value ≤ permission.valueLimit)
        if valueLimitPermissions.isEmpty then none
        else findPermissionByRule (sortByValueLimitDesc valueLimitPermissions) data

/-- Parallel zip of the three argument lists of `filterPermissions`. -/
def zip3 : List Addr → List Hexs → List Nat → List (Addr × Hexs × Nat)
  | t :: ts, d :: ds, v :: vs => (t, d, v) :: zip3 ts ds vs
  | _, _, _ => []

/-- The `.every(… !== undefined)` collapse at the end of
`filterPermissions`: all triples matched, or the whole result is
`undefined`. -/
def sequenceOptions : List (Option Permission) → Option (List Permission)
  | [] => some []
  | none :: _ => none
  | some p :: rest => (sequenceOptions rest).map fun l => p :: l

/-- `filterPermissions` (source lines 319-382).  The source throws
`Invalid arguments` on a length mismatch; that throw is caught by the
`try/catch` of `findMatchingPermissions` and becomes `undefined`, which is
what `none` denotes here. -/
def filterPermissions (perms : List Permission) (targets : List Addr)
    (dataArray : List Hexs) (values : List Nat) : Option (List Permission) :=
  if targets.length ≠ dataArray.length ∨ targets.length ≠ values.length then none
  else sequenceOptions ((zip3 targets dataArray values).map fun tdv =>
    matchTriple perms tdv.1 tdv.2.1 tdv.2.2)

/-- `findMatchingPermissions` (source lines 288-317) over decoded call
data. -/
def findMatchingPermissions (perms : List Permission) : DecodedCallData → Option Matched
  | .execute target value data =>
    Option.map Matched.single
      ((filterPermissions perms [target] [data] [value]).bind List.head?)
  | .executeBatch calls =>
    Option.map Matched.batch
      (filterPermissions perms (calls.map fun c => c.target) (calls.map fun c => c.data)
        (calls.map fun c => c.value))
  | .other => none

/-- Errors raised by the validators and the signing pipeline. -/
inductive SKError where
  | noMatchingPermission
  | invalidSignedData
  | sigParseError
  | enableSignatureNotSet
  | accountAddressNotProvided
  | notImplemented
deriving DecidableEq, Repr

/-- Comparison-sorted concatenation of a Merkle node pair:
`[left, right].sort(Buffer.compare)` then concatenate.  `Buffer.compare`
is lexicographic on bytes, which on byte-aligned nibble lists of equal
length agrees with `hexLt`. -/
def sortPairConcat (a b : Hexs) : Hexs :=
  if hexLt b a then b ++ a else a ++ b

/-- One level of the merkletreejs tree with `sortPairs: true`: hash each
sorted pair, promote an odd trailing node unchanged (`duplicateOdd` is
off by default). -/
def merkleLevel (keccak : Hexs → Hexs) : List Hexs → List Hexs
  | [] => []
  | [x] => [x]
  | x :: y :: rest => keccak (sortPairConcat x y) :: merkleLevel keccak rest

/-- Root of a merkletreejs tree from its leaf layer; `fuel` bounds the
number of levels (the leaf count suffices, each level at least halves a
multi-node layer). -/
def buildRoot (keccak : Hexs → Hexs) : Nat → List Hexs → Hexs
  | _, [] => []
  | _, [x] => x
  | 0, x :: _ => x
  | fuel + 1, x :: y :: rest => buildRoot keccak fuel (merkleLevel keccak (x :: y :: rest))

/-- The single-permission workaround (source lines 208-209): an encoded
permission list of length one is duplicated before the tree is built. -/
def dupIfSingle (l : List Hexs) : List Hexs :=
  if l.length = 1 then l ++ l else l

/-- Leaf layer of the validator's Merkle tree (source lines 204-219):
keccak-hashed encoded permissions when the set is non-empty
(`hashLeaves: true`), otherwise the single unhashed 32-byte zero sentinel
(`hashLeaves: false`).  `encodePerm` stands for the external
`encodePermissionData` ABI encoding of one permission. -/
def merkleLeaves (keccak : Hexs → Hexs) (encodePerm : Permission → Hexs)
    (perms : List Permission) : List Hexs :=
  if perms.length ≠ 0 then (dupIfSingle (perms.map encodePerm)).map keccak
  else [zero32]

/-- `merkleTree.getHexRoot()` of the validator's tree. -/
def merkleRoot (keccak : Hexs → Hexs) (encodePerm : Permission → Hexs)
    (perms : List Permission) : Hexs :=
  buildRoot keccak (merkleLeaves keccak encodePerm perms).length
    (merkleLeaves keccak encodePerm perms)

/-- `getEncodedPermissionProofData` (source lines 459-495): throw
`NoMatchingPermission` when nothing matched and the tree is not the
all-authorized zero sentinel; return "0x" when there are no permissions or
no match; otherwise the ABI encoding of the matched permission(s) with
their Merkle proof(s), modelled by the opaque `encodeWithProof`. -/
def getEncodedPermissionProofData (keccak : Hexs → Hexs)
    (encodePerm : Permission → Hexs) (encodeWithProof : Matched → Hexs)
    (perms : List Permission) (cd : DecodedCallData) : Except SKError Hexs :=
  let matchingPermission := findMatchingPermissions perms cd
  if matchingPermission.isNone && !(merkleRoot keccak encodePerm perms == zero32) then
    .error .noMatchingPermission
  else
    match matchingPermission with
    | some m => if perms.length ≠ 0 then .ok (encodeWithProof m) else .ok []
    | none => .ok []

/-- viem `isHex` (strict): the string starts with "0x" and every further
character is a hex digit.  Characters are Unicode code points. -/
def isHexDigitCode (c : Nat) : Bool :=
  (48 ≤ c && c ≤ 57) || (97 ≤ c && c ≤ 102) || (65 ≤ c && c ≤ 70)

/-- Strict hex-string test over character codes ('0' = 48, 'x' = 120). -/
def isHexStr : List Nat → Bool
  | 48 :: 120 :: rest => rest.all isHexDigitCode
  | _ => false

/-- Value of one hex digit character (only meaningful on hex digit codes). -/
def hexCharVal (c : Nat) : Nat :=
  if c ≤ 57 then c - 48 else if c ≤ 70 then c - 55 else c - 87

/-- Big-endian value of a hex digit string, as `BigInt("0x…")` computes it. -/
def hexCodesToNat (l : List Nat) : Nat :=
  l.foldl (fun acc c => 16 * acc + hexCharVal c) 0

/-- Lower-case character code of one hex digit value. -/
def hexDigitCode (v : Nat) : Nat :=
  if v < 10 then v + 48 else v + 87

/-- Fixed-width big-endian lower-case hex rendering (character codes), as
noble `toCompactHex` renders the 32-byte `r` and `s` components. -/
def natToHexCodes : Nat → Nat → List Nat
  | 0, _ => []
  | w + 1, n => natToHexCodes w (n / 16) ++ [hexDigitCode (n % 16)]

/-- Little-endian digits of `n` in base 16 (character codes), with fuel. -/
def hexDigitsRevFuel : Nat → Nat → List Nat
  | 0, _ => []
  | fuel + 1, n => if n = 0 then [] else hexDigitCode (n % 16) :: hexDigitsRevFuel fuel (n / 16)

/-- Minimal-length lower-case hex rendering of a `BigInt`, as
`toHex(v).slice(2)` produces for the recovery byte ("0" for zero). -/
def natToHexMinCodes (n : Nat) : List Nat :=
  if n = 0 then [48] else (hexDigitsRevFuel n n).reverse

/-- The secp256k1 group order; noble `Signature` validates that `r` and `s`
lie in `[1, n)` both when parsing and when re-encoding. -/
def secpN : Nat :=
  0xFFFFFFFFFFFFFFFFFFFFFFFFFFFFFFFEBAAEDCE6AF48A03BBFD25E8CD0364141

/-- viem `hexToSignature`: `r` and `s` from the 128 compact hex characters
at string positions 2..130 (noble `fromCompact`, which needs exactly 128
characters and range-checks both values), `v` as `BigInt` of the remainder
(which must be non-empty). -/
def hexToSignature (str : List Nat) : Except SKError (Nat × Nat × Nat) :=
  let compact := (str.drop 2).take 128
  if compact.length ≠ 128 then .error .sigParseError
  else
    let r := hexCodesToNat (compact.take 64)
    let s := hexCodesToNat (compact.drop 64)
    if r = 0 || secpN ≤ r || s = 0 || secpN ≤ s then .error .sigParseError
    else
      let vPart := str.drop 130
      if vPart.isEmpty then .error .sigParseError
      else .ok (r, s, hexCodesToNat vPart)

/-- viem `signatureToHex`: "0x" then the 128-character compact rendering of
`r` and `s` (re-validated by noble) then the minimal hex of `v`. -/
def signatureToHex (r s v : Nat) : Except SKError (List Nat) :=
  if r = 0 || secpN ≤ r || s = 0 || secpN ≤ s then .error .sigParseError
  else .ok (48 :: 120 :: (natToHexCodes 64 r ++ natToHexCodes 64 s ++ natToHexMinCodes v))

/-- The body of `fixSignedData` once the "0x" prefix has been settled:
throw `Invalid signed data` unless the string is hex, parse, rewrite a
recovery id of 0 or 1 to 27/28, and re-encode. -/
def fixSignedDataChecked (signature : List Nat) : Except SKError (List Nat) :=
  if !isHexStr signature then .error .invalidSignedData
  else
    match hexToSignature signature with
    | .error e => .error e
    | .ok (r, s, v) => signatureToHex r s (if v = 0 || v = 1 then v + 27 else v)

/-- `fixSignedData` (source lines 761-774): prefix "0x" when the input is
not already hex, then normalize. -/
def fixSignedData (sig : List Nat) : Except SKError (List Nat) :=
  fixSignedDataChecked (if isHexStr sig then sig else 48 :: 120 :: sig)

/-- Bridge from a hex string (character codes, with "0x" prefix) to the
nibble representation: exactly what viem `concat` does with the fixed
signature when assembling the final payload. -/
def hexCharsToNibs (s : List Nat) : Hexs :=
  (s.drop 2).map hexCharVal

/-- `ValidatorMode` header values: sudo "0x00000000", plugin "0x00000001",
enable "0x00000002". -/
inductive ValidatorMode where
  | sudo
  | plugin
  | enable
deriving DecidableEq, Repr

/-- The 4-byte mode header bytes. -/
def vmBytes : ValidatorMode → Hexs
  | .sudo => [0, 0, 0, 0, 0, 0, 0, 0]
  | .plugin => [0, 0, 0, 0, 0, 0, 0, 1]
  | .enable => [0, 0, 0, 0, 0, 0, 0, 2]

/-- `ExecutorData` of the session-key validator. -/
structure ExecutorData where
  executor : Hexs
  selector : Hexs
  validUntil : Nat
  validAfter : Nat
deriving DecidableEq, Repr

/-- The session-key validator's construction-time state that the signing
pipeline reads.  `keccak`, `encodePerm` (the external `encodeAbiParameters`
encoding of one permission) and `encodeWithProof` (the encoding of the
matched permission(s) together with their merkletreejs proof(s)) are the
opaque external collaborators; `lastNonce` is the nonce read from the
on-chain validator contract. -/
structure SKConfig where
  keccak : Hexs → Hexs
  encodePerm : Permission → Hexs
  encodeWithProof : Matched → Hexs
  mode : ValidatorMode
  executorData : ExecutorData
  validatorAddress : Hexs
  sessionKeyAddress : Hexs
  validAfter : Nat
  validUntil : Nat
  paymaster : Hexs
  lastNonce : Nat

/-- `getEnableData` of the session-key validator (source lines 221-243):
requires a kernel account address, then concatenates the session key
address, the padded Merkle root, the 6-byte validity window bounds, the
paymaster and the 32-byte incremented session nonce. -/
def getEnableDataSK (cfg : SKConfig) (perms : List Permission)
    (kernelAccountAddress : Option Hexs) : Except SKError Hexs :=
  match kernelAccountAddress with
  | none => .error .accountAddressNotProvided
  | some _ =>
    .ok (cfg.sessionKeyAddress
      ++ padNibsTo 64 (merkleRoot cfg.keccak cfg.encodePerm perms)
      ++ natToNibsFW 12 cfg.validAfter
      ++ natToNibsFW 12 cfg.validUntil
      ++ cfg.paymaster
      ++ natToNibsFW 64 (cfg.lastNonce + 1))

/-- `getValidatorSignature` (source lines 262-286): sudo and plugin modes
return the bare mode header; enable mode builds the enable payload and
requires the plugin enable signature. -/
def getValidatorSignature (cfg : SKConfig) (perms : List Permission)
    (accountAddress : Hexs) (pluginEnableSignature : Option Hexs) : Except SKError Hexs :=
  match cfg.mode with
  | .sudo => .ok (vmBytes .sudo)
  | .plugin => .ok (vmBytes .plugin)
  | .enable =>
    match getEnableDataSK cfg perms (some accountAddress) with
    | .error e => .error e
    | .ok enableData =>
      let enableDataLength := enableData.length / 2
      match pluginEnableSignature with
      | none => .error .enableSignatureNotSet
      | some enableSignature =>
        .ok (vmBytes .enable
          ++ natToNibsFW 12 cfg.executorData.validUntil
          ++ natToNibsFW 12 cfg.executorData.validAfter
          ++ padNibsTo 40 cfg.validatorAddress
          ++ padNibsTo 40 cfg.executorData.executor
          ++ natToNibsFW 64 enableDataLength
          ++ enableData
          ++ natToNibsFW 64 (enableSignature.length / 2)
          ++ enableSignature)

/-- A user operation; gas and fee fields are opaque pass-through
(`rest`), the callData is carried in decoded form (see
`DecodedCallData`). -/
structure UserOp where
  sender : Hexs
  callData : DecodedCallData
  signature : Hexs
  rest : Nat
deriving DecidableEq, Repr

/-- `signUserOperation` of the session-key validator (source lines
508-532).  The raw ECDSA signature over the user-operation hash is the
external signer's output (`rawSignature`, a hex string as character
codes); it is normalized by `fixSignedData`, then the validator signature,
session key address, fixed signature and permission proof data are
concatenated.  Failures surface in source evaluation order: signature
normalization, then validator signature, then proof data. -/
def skSignUserOperation (cfg : SKConfig) (perms : List Permission) (op : UserOp)
    (rawSignature : List Nat) (pluginEnableSignature : Option Hexs) : Except SKError Hexs :=
  match fixSignedData rawSignature with
  | .error e => .error e
  | .ok fixedSignature =>
    match getValidatorSignature cfg perms op.sender pluginEnableSignature with
    | .error e => .error e
    | .ok vs =>
      match getEncodedPermissionProofData cfg.keccak cfg.encodePerm cfg.encodeWithProof
          perms op.callData with
      | .error e => .error e
      | .ok proofData =>
        .ok (vs ++ cfg.sessionKeyAddress ++ hexCharsToNibs fixedSignature ++ proofData)

/-- `getPluginApproveSignature` of the session-key validator (source lines
550-552): unconditionally `throw new Error("Not implemented")`. -/
def skGetPluginApproveSignature (_accountAddress : Addr) (_plugin : Nat) :
    Except SKError Hexs :=
  .error .notImplemented

/-- The 4-byte sudo-mode marker "0x00000000" the ECDSA validator prefixes. -/
def sudoModeMarker : Hexs := [0, 0, 0, 0, 0, 0, 0, 0]

/-- `getEnableData` of the ECDSA validator: `return viemSigner.address`
(the 20-byte address hex string, unmodified). -/
def ecdsaGetEnableData (signerAddress : Hexs) : Hexs :=
  signerAddress

/-- What the spec text asserts `getEnableData` returns: the signer's
address zero-padded to 32 bytes.  Stated from the spec's words, for
comparison with the source's `ecdsaGetEnableData`. -/
def specEnableDataPadded (signerAddress : Hexs) : Hexs :=
  padNibsTo 64 signerAddress

/-- `signUserOperation` of the ECDSA validator: hash the operation with
its signature field emptied (`getUserOperationHash` is the external
permissionless hasher, `sign` the external raw signer over a 32-byte
digest), then prefix the sudo-mode marker. -/
def ecdsaSignUserOperation (getUserOperationHash : UserOp → Hexs)
    (sign : Hexs → Hexs) (op : UserOp) : Hexs :=
  sudoModeMarker ++ sign (getUserOperationHash { op with signature := [] })

/-- `CallType` of a kernel transaction request, as the repository's test
suite passes it ("call" / "delegatecall"). -/
inductive CallType where
  | call
  | delegatecall
deriving DecidableEq, Repr

/-- A transaction request handed to `encodeCallData`.  The `callType`
field is what a delegate-call request carries; the `encodeCallData` of
this source ignores it. -/
structure KernelTx where
  target : Addr
  value : Nat
  data : Hexs
  callType : Option CallType
deriving DecidableEq, Repr

/-- The symbolic result of viem `encodeFunctionData` against the kernel
execute ABI: the function selected and its argument values (the external
ABI byte encoding is injective per function and arguments, so nothing is
lost by keeping it symbolic). -/
inductive EncodedKernelCall where
  | execute (target : Addr) (value : Nat) (data : Hexs) (operation : Nat)
  | executeBatch (txs : List BatchCall)
deriving DecidableEq, Repr

/-- `encodeCallData` of `createKernelAccount` (source lines 299-321): an
array becomes `executeBatch` over the `(to, value, data)` projections, a
single request becomes `execute(to, value, data, 0)` — the operation flag
argument is the literal `0` on every path. -/
def encodeCallData : KernelTx ⊕ List KernelTx → EncodedKernelCall
  | .inr txs => .executeBatch (txs.map fun tx => ⟨tx.target, tx.value, tx.data⟩)
  | .inl tx => .execute tx.target tx.value tx.data 0

/-- `signUserOperation` of `createKernelAccount` (source lines 250-263):
with an active plugin, first obtain the plugin-approve signature from the
default validator, then delegate to the current validator
(`plugin ?? defaultValidator`, modelled by `currentSignUserOperation`). -/
def kernelSignUserOperation (defaultGetPluginApprove : Addr → Nat → Except SKError Hexs)
    (currentSignUserOperation : UserOp → Option Hexs → Except SKError Hexs)
    (accountAddress : Addr) (plugin : Option Nat) (op : UserOp) : Except SKError Hexs :=
  match plugin with
  | some pl =>
    match defaultGetPluginApprove accountAddress pl with
    | .error e => .error e
    | .ok pluginEnableSignature => currentSignUserOperation op (some pluginEnableSignature)
  | none => currentSignUserOperation op none


theorem hexToSignature_error_cases (s : List Nat) (e : SKError)
    (h : hexToSignature s = .error e) : e = SKError.sigParseError := by
  simp only [hexToSignature] at h
  split at h
  · exact ((Except.error.injEq _ _).mp h).symm
  · split at h
    · exact ((Except.error.injEq _ _).mp h).symm
    · split at h
      · exact ((Except.error.injEq _ _).mp h).symm
      · exact absurd h (by simp)

theorem signatureToHex_error_cases (r s v : Nat) (e : SKError)
    (h : signatureToHex r s v = .error e) : e = SKError.sigParseError := by
  simp only [signatureToHex] at h
  split at h
  · exact ((Except.error.injEq _ _).mp h).symm
  · exact absurd h (by simp)

theorem fixSignedDataChecked_error_cases (t : List Nat) (e : SKError)
    (h : fixSignedDataChecked t = .error e) :
    e = SKError.invalidSignedData ∨ e = SKError.sigParseError := by
  simp only [fixSignedDataChecked] at h
  split at h
  · exact Or.inl ((Except.error.injEq _ _).mp h).symm
  · split at h
    · rename_i he hh
      exact Or.inr ((Except.error.injEq _ _).mp h ▸ hexToSignature_error_cases _ _ hh)
    · exact Or.inr (signatureToHex_error_cases _ _ _ _ h)

theorem fixSignedData_error_cases (s : List Nat) (e : SKError)
    (h : fixSignedData s = .error e) :
    e = SKError.invalidSignedData ∨ e = SKError.sigParseError :=
  fixSignedDataChecked_error_cases _ e h

theorem getValidatorSignature_error_cases (cfg : SKConfig) (perms : List Permission)
    (a : Hexs) (pes : Option Hexs) (e : SKError)
    (h : getValidatorSignature cfg perms a pes = .error e) :
    e = SKError.enableSignatureNotSet := by
  cases hm : cfg.mode
  · simp [getValidatorSignature, hm] at h
  · simp [getValidatorSignature, hm] at h
  · cases pes
    · simp [getValidatorSignature, hm, getEnableDataSK] at h
      exact h.symm
    · simp [getValidatorSignature, hm, getEnableDataSK] at h

theorem proofData_empty_permissions (keccak : Hexs → Hexs)
    (ep : Permission → Hexs) (ewp : Matched → Hexs) (cd : DecodedCallData) :
    getEncodedPermissionProofData keccak ep ewp [] cd = .ok [] := by
  have hmatch : findMatchingPermissions [] cd = none ∨
      findMatchingPermissions [] cd = some (Matched.batch []) := by
    cases cd with
    | execute t v d =>
      simp [findMatchingPermissions, filterPermissions, zip3, matchTriple, sequenceOptions]
    | executeBatch calls =>
      cases calls with
      | nil =>
        simp [findMatchingPermissions, filterPermissions, zip3, sequenceOptions]
      | cons c cs =>
        simp [findMatchingPermissions, filterPermissions, zip3, matchTriple, sequenceOptions]
    | other => simp [findMatchingPermissions]
  have hroot : merkleRoot keccak ep [] = zero32 := by
    simp [merkleRoot, merkleLeaves, buildRoot]
  rcases hmatch with hm | hm <;>
    simp [getEncodedPermissionProofData, hm, hroot]

/-- C2: with zero permissions the defaulting pass yields the empty
permission list, the Merkle tree is the single-leaf zero sentinel with a
zero 32-byte root, the permission-proof segment is the empty byte string
"0x" for every call, and signing never fails with
`NoMatchingPermission`. -/
theorem sessionKeyZeroPermissionsBypass :
    (normalizePermissions none = [] ∧ normalizePermissions (some []) = [])
    ∧ (∀ keccak ep, merkleLeaves keccak ep [] = [zero32]
        ∧ merkleRoot keccak ep [] = zero32)
    ∧ (∀ keccak ep ewp cd, getEncodedPermissionProofData keccak ep ewp [] cd = .ok [])
    ∧ (∀ cfg op raw pes,
        skSignUserOperation cfg [] op raw pes ≠ .error SKError.noMatchingPermission) := by
  refine ⟨⟨rfl, rfl⟩, ?_, ?_, ?_⟩
  · intro keccak ep
    exact ⟨by simp [merkleLeaves], by simp [merkleRoot, merkleLeaves, buildRoot]⟩
  · intro keccak ep ewp cd
    exact proofData_empty_permissions keccak ep ewp cd
  · intro cfg op raw pes h
    unfold skSignUserOperation at h
    rcases hf : fixSignedData raw with e | fs
    · rw [hf] at h
      rcases fixSignedData_error_cases raw e hf with he | he <;>
        simp [he] at h
    · rw [hf] at h
      rcases hv : getValidatorSignature cfg [] op.sender pes with e | vs
      · rw [hv] at h
        have := getValidatorSignature_error_cases cfg [] op.sender pes e hv
        simp [this] at h
      · rw [hv] at h
        rw [proofData_empty_permissions] at h
        simp at h

/-- C10: the session-key validator's `getPluginApproveSignature` always
throws, so when it is the default validator and a plugin is active,
kernel-account signing always fails at the plugin-approve step. -/
theorem sessionKeyPluginApproveUnimplemented :
    (∀ a pl, skGetPluginApproveSignature a pl = .error SKError.notImplemented)
    ∧ (∀ currentSign a pl op,
        kernelSignUserOperation skGetPluginApproveSignature currentSign a (some pl) op
          = .error SKError.notImplemented) :=
  ⟨fun _ _ => rfl, fun _ _ _ _ => rfl⟩

/-- C8: the ECDSA validator's signature always starts with the 4-byte
sudo-mode marker, equals the marker followed by the raw signature over the
hash of the operation with its signature field emptied, and is therefore
independent of whatever signature the operation carried. -/
theorem ecdsaSignatureSudoPrefix :
    (∀ h s op, (ecdsaSignUserOperation h s op).take 8 = sudoModeMarker)
    ∧ (∀ h s op, ecdsaSignUserOperation h s op
        = sudoModeMarker ++ s (h { op with signature := [] }))
    ∧ (∀ h s op sig0, ecdsaSignUserOperation h s { op with signature := sig0 }
        = ecdsaSignUserOperation h s op) := by
  refine ⟨?_, fun _ _ _ => rfl, fun _ _ _ _ => rfl⟩
  intro h s op
  show (sudoModeMarker ++ s (h { op with signature := [] })).take 8 = sudoModeMarker
  rw [show (8 : Nat) = sudoModeMarker.length from rfl, List.take_left]

/-- A concrete 20-byte signer address (40 nibbles). -/
def c4SignerAddress : Hexs := List.replicate 39 10 ++ [1]

/-- C4 counterexample: `getEnableData` of the ECDSA validator returns the
signer's 20-byte address verbatim, which is not the 32-byte zero-padded
form the claim asserts. -/
theorem ecdsaEnableDataNotPadded :
    ecdsaGetEnableData c4SignerAddress = c4SignerAddress
    ∧ (ecdsaGetEnableData c4SignerAddress).length = 40
    ∧ (specEnableDataPadded c4SignerAddress).length = 64
    ∧ ecdsaGetEnableData c4SignerAddress ≠ specEnableDataPadded c4SignerAddress :=
  ⟨rfl, by decide, by decide, by decide⟩

/-- C4 amended: `getEnableData` returns the signer's address unchanged
(20 bytes, not padded). -/
theorem ecdsaEnableDataIdentity :
    ∀ a : Hexs, ecdsaGetEnableData a = a ∧ (ecdsaGetEnableData a).length = a.length :=
  fun _ => ⟨rfl, rfl⟩

/-- C5: `encodeCallData` encodes a single request as
`execute(to, value, data, 0)` no matter what `callType` the request
carries — a delegate-call request produces call data byte-identical to a
normal call, so the operation flag is never distinct. -/
theorem encodeCallDataIgnoresDelegate :
    encodeCallData (.inl ⟨1, 2, [3], some CallType.delegatecall⟩)
      = .execute 1 2 [3] 0
    ∧ encodeCallData (.inl ⟨1, 2, [3], some CallType.delegatecall⟩)
      = encodeCallData (.inl ⟨1, 2, [3], some CallType.call⟩)
    ∧ encodeCallData (.inl ⟨1, 2, [3], some CallType.delegatecall⟩)
      = encodeCallData (.inl ⟨1, 2, [3], none⟩)
    ∧ (∀ txs : List KernelTx, encodeCallData (.inr txs)
        = .executeBatch (txs.map fun tx => ⟨tx.target, tx.value, tx.data⟩)) :=
  ⟨rfl, rfl, rfl, fun _ => rfl⟩

/-- C1: with two permissions for the same target and selector and no param
rules, a call carrying value 7 keeps only the permission with limit 10
after the value-limit filter (the limit-5 permission fails `5 ≥ 7`), and
the matcher returns that permission alone, in either list order. -/
theorem permissionValueLimitSelection (A : Addr) (sel data : Hexs)
    (i1 i2 : Nat) (er1 er2 : ExecutionRule) (o1 o2 : Operation)
    (hsel : data.take 8 = sel) :
    List.filter (fun p : Permission => decide (7 ≤ p.valueLimit))
        [Permission.mk A i1 [] sel 10 er1 o1, Permission.mk A i2 [] sel 5 er2 o2]
      = [Permission.mk A i1 [] sel 10 er1 o1]
    ∧ matchTriple [Permission.mk A i1 [] sel 10 er1 o1,
        Permission.mk A i2 [] sel 5 er2 o2] A data 7
      = some (Permission.mk A i1 [] sel 10 er1 o1)
    ∧ matchTriple [Permission.mk A i2 [] sel 5 er2 o2,
        Permission.mk A i1 [] sel 10 er1 o1] A data 7
      = some (Permission.mk A i1 [] sel 10 er1 o1)
    ∧ filterPermissions [Permission.mk A i1 [] sel 10 er1 o1,
        Permission.mk A i2 [] sel 5 er2 o2] [A] [data] [7]
      = some [Permission.mk A i1 [] sel 10 er1 o1]
    ∧ filterPermissions [Permission.mk A i2 [] sel 5 er2 o2,
        Permission.mk A i1 [] sel 10 er1 o1] [A] [data] [7]
      = some [Permission.mk A i1 [] sel 10 er1 o1] := by
  have h12 : matchTriple [Permission.mk A i1 [] sel 10 er1 o1,
      Permission.mk A i2 [] sel 5 er2 o2] A data 7
      = some (Permission.mk A i1 [] sel 10 er1 o1) := by
    simp [matchTriple, filterByOperation, filterBySignature, hsel,
      sortByValueLimitDesc, insertByValueLimitDesc, findPermissionByRule, rulesPass]
  have h21 : matchTriple [Permission.mk A i2 [] sel 5 er2 o2,
      Permission.mk A i1 [] sel 10 er1 o1] A data 7
      = some (Permission.mk A i1 [] sel 10 er1 o1) := by
    simp [matchTriple, filterByOperation, filterBySignature, hsel,
      sortByValueLimitDesc, insertByValueLimitDesc, findPermissionByRule, rulesPass]
  refine ⟨by simp, h12, h21, ?_, ?_⟩
  · simp [filterPermissions, zip3, sequenceOptions, h12]
  · simp [filterPermissions, zip3, sequenceOptions, h21]

/-- Witness for C1 at a concrete target, selector and call. -/
theorem permissionValueLimitSelection_witness :
    matchTriple [Permission.mk 1 0 [] [1, 2, 3, 4, 5, 6, 7, 8] 10 ⟨0, 0, 0⟩ Operation.Call,
        Permission.mk 1 1 [] [1, 2, 3, 4, 5, 6, 7, 8] 5 ⟨0, 0, 0⟩ Operation.Call]
      1 [1, 2, 3, 4, 5, 6, 7, 8] 7
      = some (Permission.mk 1 0 [] [1, 2, 3, 4, 5, 6, 7, 8] 10 ⟨0, 0, 0⟩ Operation.Call) :=
  (permissionValueLimitSelection 1 [1, 2, 3, 4, 5, 6, 7, 8] [1, 2, 3, 4, 5, 6, 7, 8]
    0 1 ⟨0, 0, 0⟩ ⟨0, 0, 0⟩ Operation.Call Operation.Call (by decide)).2.1

theorem zip3_self_maps (calls : List BatchCall) :
    zip3 (calls.map fun c => c.target) (calls.map fun c => c.data)
        (calls.map fun c => c.value)
      = calls.map fun c => (c.target, c.data, c.value) := by
  induction calls with
  | nil => rfl
  | cons c cs ih => simp [zip3, ih]

theorem sequenceOptions_eq_none_of_mem (l : List (Option Permission))
    (h : none ∈ l) : sequenceOptions l = none := by
  induction l with
  | nil => simp at h
  | cons x xs ih =>
    cases x with
    | none => rfl
    | some p =>
      have hx : none ∈ xs := by
        rcases List.mem_cons.mp h with h1 | h1
        · exact absurd h1 (by simp)
        · exact h1
      simp [sequenceOptions, ih hx]

theorem findMatchingPermissions_none_of_triple (perms : List Permission)
    (cd : DecodedCallData)
    (h : (∃ t v d, cd = .execute t v d ∧ matchTriple perms t d v = none)
      ∨ (∃ calls, cd = .executeBatch calls
          ∧ ∃ c ∈ calls, matchTriple perms c.target c.data c.value = none)) :
    findMatchingPermissions perms cd = none := by
  rcases h with ⟨t, v, d, hcd, hmt⟩ | ⟨calls, hcd, c, hc, hmt⟩
  · subst hcd
    simp [findMatchingPermissions, filterPermissions, zip3, sequenceOptions, hmt]
  · subst hcd
    have hmem : none ∈ (zip3 (calls.map fun c => c.target) (calls.map fun c => c.data)
        (calls.map fun c => c.value)).map fun tdv => matchTriple perms tdv.1 tdv.2.1 tdv.2.2 := by
      rw [zip3_self_maps, List.map_map]
      exact List.mem_map.mpr ⟨c, hc, hmt⟩
    simp [findMatchingPermissions, filterPermissions,
      sequenceOptions_eq_none_of_mem _ hmem]

/-- C3: with a non-empty permission set (hence a non-sentinel Merkle root),
if the decoded call data is an `execute` or `executeBatch` in which some
(target, value, data) triple matches no permission, then — provided the
earlier signing stages succeed — `signUserOperation` fails with
`NoMatchingPermission`; one unmatched triple fails the whole batch. -/
theorem noMatchingPermissionFailure (cfg : SKConfig) (perms : List Permission)
    (op : UserOp) (raw : List Nat) (pes : Option Hexs) (fs vs : Hexs)
    (_hne : perms ≠ [])
    (hroot : merkleRoot cfg.keccak cfg.encodePerm perms ≠ zero32)
    (htriple : (∃ t v d, op.callData = .execute t v d ∧ matchTriple perms t d v = none)
      ∨ (∃ calls, op.callData = .executeBatch calls
          ∧ ∃ c ∈ calls, matchTriple perms c.target c.data c.value = none))
    (hfix : fixSignedData raw = .ok fs)
    (hvs : getValidatorSignature cfg perms op.sender pes = .ok vs) :
    skSignUserOperation cfg perms op raw pes = .error SKError.noMatchingPermission := by
  have hmatch := findMatchingPermissions_none_of_triple perms op.callData htriple
  have hproof : getEncodedPermissionProofData cfg.keccak cfg.encodePerm cfg.encodeWithProof
      perms op.callData = .error SKError.noMatchingPermission := by
    have hrootb : (merkleRoot cfg.keccak cfg.encodePerm perms == zero32) = false := by
      simpa using hroot
    simp [getEncodedPermissionProofData, hmatch, hrootb]
  unfold skSignUserOperation
  rw [hfix, hvs, hproof]

instance decEqExcept {ε α : Type} [DecidableEq ε] [DecidableEq α] :
    DecidableEq (Except ε α) := fun x y =>
  match x, y with
  | .error a, .error b =>
    if h : a = b then isTrue (by rw [h]) else isFalse (by simp [h])
  | .ok a, .ok b =>
    if h : a = b then isTrue (by rw [h]) else isFalse (by simp [h])
  | .error _, .ok _ => isFalse (by simp)
  | .ok _, .error _ => isFalse (by simp)

/-- A concrete permission for the C3 witness: target 5, zero selector. -/
def c3Permission : Permission :=
  Permission.mk 5 0 [] (List.replicate 8 0) 0 ⟨0, 0, 0⟩ Operation.Call

/-- A concrete session-key configuration for the C3 witness: sudo mode and
a constant 32-byte keccak stub. -/
def c3Config : SKConfig :=
  { keccak := fun _ => List.replicate 64 1
    encodePerm := fun _ => []
    encodeWithProof := fun _ => []
    mode := ValidatorMode.sudo
    executorData := ⟨[], [], 0, 0⟩
    validatorAddress := []
    sessionKeyAddress := []
    validAfter := 0
    validUntil := 0
    paymaster := []
    lastNonce := 0 }

/-- A well-formed raw signature (r = 1, s = 1, v = 27) as character codes. -/
def c3RawSignature : List Nat :=
  48 :: 120 :: (List.replicate 63 48 ++ [49] ++ (List.replicate 63 48 ++ [49]) ++ [49, 98])

set_option maxRecDepth 4000 in
/-- Witness for C3: a call to target 5 whose selector differs from the only
permission's selector makes signing fail with `NoMatchingPermission`. -/
theorem noMatchingPermissionFailure_witness :
    skSignUserOperation c3Config [c3Permission]
      ⟨[], .execute 5 0 [1, 1, 1, 1, 1, 1, 1, 1], [], 0⟩ c3RawSignature none
      = .error SKError.noMatchingPermission :=
  noMatchingPermissionFailure c3Config [c3Permission]
    ⟨[], .execute 5 0 [1, 1, 1, 1, 1, 1, 1, 1], [], 0⟩ c3RawSignature none
    c3RawSignature [0, 0, 0, 0, 0, 0, 0, 0]
    (by decide)
    (by decide)
    (Or.inl ⟨5, 0, [1, 1, 1, 1, 1, 1, 1, 1], rfl, by decide⟩)
    (by decide)
    rfl

/-- Big-endian base-16 value of a nibble list: the unsigned integer a
32-byte word denotes.  This is the spec's side of the comparison claims;
the code side is the string comparison `hexLt`. -/
def bigEndianVal : List Nat → Nat
  | [] => 0
  | x :: xs => x * 16 ^ xs.length + bigEndianVal xs

theorem bigEndianVal_lt_pow (l : List Nat) (h : ∀ x ∈ l, x < 16) :
    bigEndianVal l < 16 ^ l.length := by
  induction l with
  | nil => simp [bigEndianVal]
  | cons x xs ih =>
    have hx : x < 16 := h x (by simp)
    have hxs := ih fun y hy => h y (by simp [hy])
    have hmul : (x + 1) * 16 ^ xs.length ≤ 16 * 16 ^ xs.length :=
      Nat.mul_le_mul_right _ (by omega)
    have hexp : (x + 1) * 16 ^ xs.length = x * 16 ^ xs.length + 16 ^ xs.length := by ring
    have hpow : (16 : Nat) ^ (x :: xs).length = 16 * 16 ^ xs.length := by
      simp [pow_succ]; ring
    simp only [bigEndianVal, hpow]
    omega

theorem hexLt_iff_lt (a : List Nat) : ∀ b : List Nat, a.length = b.length →
    (∀ x ∈ a, x < 16) → (∀ x ∈ b, x < 16) →
    (hexLt a b = true ↔ bigEndianVal a < bigEndianVal b) := by
  induction a with
  | nil =>
    intro b hlen _ _
    cases b with
    | nil => simp [hexLt, bigEndianVal]
    | cons y ys => simp at hlen
  | cons x xs ih =>
    intro b hlen ha hb
    cases b with
    | nil => simp at hlen
    | cons y ys =>
      have hlen' : xs.length = ys.length := by simpa using hlen
      have hxs : ∀ z ∈ xs, z < 16 := fun z hz => ha z (by simp [hz])
      have hys : ∀ z ∈ ys, z < 16 := fun z hz => hb z (by simp [hz])
      have hv1 : bigEndianVal xs < 16 ^ xs.length := bigEndianVal_lt_pow xs hxs
      have hv2 : bigEndianVal ys < 16 ^ ys.length := bigEndianVal_lt_pow ys hys
      have hP : (16 : Nat) ^ xs.length = 16 ^ ys.length := by rw [hlen']
      have hprodX : x * 16 ^ xs.length = x * 16 ^ ys.length := by rw [hlen']
      have hprodY : y * 16 ^ xs.length = y * 16 ^ ys.length := by rw [hlen']
      simp only [hexLt, bigEndianVal]
      by_cases hxy : x < y
      · rw [if_pos hxy]
        have hmul : (x + 1) * 16 ^ xs.length ≤ y * 16 ^ xs.length :=
          Nat.mul_le_mul_right _ hxy
        have hexp : (x + 1) * 16 ^ xs.length = x * 16 ^ xs.length + 16 ^ xs.length := by
          ring
        constructor
        · intro _
          omega
        · intro _
          rfl
      · by_cases hyx : y < x
        · rw [if_neg hxy, if_pos hyx]
          have hmul : (y + 1) * 16 ^ ys.length ≤ x * 16 ^ ys.length :=
            Nat.mul_le_mul_right _ hyx
          have hexp : (y + 1) * 16 ^ ys.length = y * 16 ^ ys.length + 16 ^ ys.length := by
            ring
          constructor
          · intro hfalse
            exact absurd hfalse (by simp)
          · intro hlt
            exfalso
            omega
        · have hxey : x = y := by omega
          subst hxey
          rw [if_neg hxy, if_neg hxy]
          have hiff := ih ys hlen' hxs hys
          rw [hiff]
          omega

theorem hexLt_eq_decide (a b : List Nat) (hlen : a.length = b.length)
    (ha : ∀ x ∈ a, x < 16) (hb : ∀ x ∈ b, x < 16) :
    hexLt a b = decide (bigEndianVal a < bigEndianVal b) := by
  by_cases h : bigEndianVal a < bigEndianVal b
  · simp [h, (hexLt_iff_lt a b hlen ha hb).mpr h]
  · have hne : hexLt a b ≠ true := fun hc => h ((hexLt_iff_lt a b hlen ha hb).mp hc)
    have hf : hexLt a b = false := by
      revert hne
      cases hexLt a b <;> simp
    simp [h, hf]

theorem hexLt_total (a : List Nat) : ∀ b : List Nat, a.length = b.length →
    hexLt a b = false → hexLt b a = false → a = b := by
  induction a with
  | nil =>
    intro b hlen _ _
    cases b with
    | nil => rfl
    | cons y ys => simp at hlen
  | cons x xs ih =>
    intro b hlen hab hba
    cases b with
    | nil => simp at hlen
    | cons y ys =>
      have hlen' : xs.length = ys.length := by simpa using hlen
      simp only [hexLt] at hab hba
      by_cases hxy : x < y
      · rw [if_pos hxy] at hab
        exact absurd hab (by simp)
      · by_cases hyx : y < x
        · rw [if_pos hyx] at hba
          exact absurd hba (by simp)
        · have hxey : x = y := by omega
          subst hxey
          rw [if_neg hxy, if_neg hxy] at hab
          rw [if_neg hxy, if_neg hxy] at hba
          rw [ih ys hlen' hab hba]

theorem bigEndianVal_inj (a b : List Nat) (hlen : a.length = b.length)
    (ha : ∀ x ∈ a, x < 16) (hb : ∀ x ∈ b, x < 16) :
    bigEndianVal a = bigEndianVal b ↔ a = b := by
  constructor
  · intro hv
    cases hab : hexLt a b
    · cases hba : hexLt b a
      · exact hexLt_total a b hlen hab hba
      · have := (hexLt_iff_lt b a hlen.symm hb ha).mp hba
        omega
    · have := (hexLt_iff_lt a b hlen ha hb).mp hab
      omega
  · intro h
    rw [h]

theorem rulesPass_eq_all (data : Hexs) (rs : List ParamRules) :
    rulesPass data rs = rs.all (rulePasses data) := by
  induction rs with
  | nil => rfl
  | cons r rs ih =>
    simp only [rulesPass, List.all_cons]
    by_cases h : rulePasses data r <;> simp [h, ih]

theorem findPermissionByRule_eq_find (ps : List Permission) (data : Hexs) :
    findPermissionByRule ps data = ps.find? fun p => p.rules.all (rulePasses data) := by
  unfold findPermissionByRule
  congr 1
  funext p
  exact rulesPass_eq_all data p.rules

/-- C6: each rule's word is the 32-byte slice at hex positions
`10 + offset*2` onward of the call data, padded; every operator agrees with
big-endian unsigned integer comparison of the two words; an empty rule
list passes trivially; and the first candidate (in the given sorted order)
whose rules all pass is the match. -/
theorem ruleComparisonsBigEndian :
    (∀ d r : Hexs, d.length = 64 → r.length = 64 →
      (∀ x ∈ d, x < 16) → (∀ x ∈ r, x < 16) →
      evaluateRuleCondition d r ParamOperator.EQUAL
          = decide (bigEndianVal d = bigEndianVal r)
        ∧ evaluateRuleCondition d r ParamOperator.GREATER_THAN
          = decide (bigEndianVal r < bigEndianVal d)
        ∧ evaluateRuleCondition d r ParamOperator.LESS_THAN
          = decide (bigEndianVal d < bigEndianVal r)
        ∧ evaluateRuleCondition d r ParamOperator.GREATER_THAN_OR_EQUAL
          = decide (bigEndianVal r ≤ bigEndianVal d)
        ∧ evaluateRuleCondition d r ParamOperator.LESS_THAN_OR_EQUAL
          = decide (bigEndianVal d ≤ bigEndianVal r)
        ∧ evaluateRuleCondition d r ParamOperator.NOT_EQUAL
          = decide (bigEndianVal d ≠ bigEndianVal r))
    ∧ (∀ data rule, rulePasses data rule
        = evaluateRuleCondition
            (getFormattedHex ((data.drop (8 + rule.offset * 2)).take 64))
            (getFormattedHex rule.param) rule.condition)
    ∧ (∀ data (p : Permission), p.rules = [] → rulesPass data p.rules = true)
    ∧ (∀ ps data, findPermissionByRule ps data
        = ps.find? fun p => p.rules.all (rulePasses data))
    ∧ (∀ v : Hexs, v.length ≤ 64 → (getFormattedHex v).length = 64)
    ∧ (∀ (v : Hexs) x, (∀ y ∈ v, y < 16) → x ∈ getFormattedHex v → x < 16) := by
  refine ⟨?_, fun _ _ => rfl, ?_, findPermissionByRule_eq_find, ?_, ?_⟩
  · intro d r hld hlr hd hr
    have hlen : d.length = r.length := by rw [hld, hlr]
    refine ⟨?_, ?_, ?_, ?_, ?_, ?_⟩
    · show (d == r) = decide (bigEndianVal d = bigEndianVal r)
      by_cases hdr : d = r
      · subst hdr
        simp
      · have hv : bigEndianVal d ≠ bigEndianVal r :=
          fun hv => hdr ((bigEndianVal_inj d r hlen hd hr).mp hv)
        simp [hdr, hv]
    · show hexLt r d = decide (bigEndianVal r < bigEndianVal d)
      exact hexLt_eq_decide r d hlen.symm hr hd
    · show hexLt d r = decide (bigEndianVal d < bigEndianVal r)
      exact hexLt_eq_decide d r hlen hd hr
    · show (!hexLt d r) = decide (bigEndianVal r ≤ bigEndianVal d)
      rw [hexLt_eq_decide d r hlen hd hr]
      by_cases h : bigEndianVal d < bigEndianVal r
      · have h2 : ¬bigEndianVal r ≤ bigEndianVal d := by omega
        simp [h, h2]
      · have h2 : bigEndianVal r ≤ bigEndianVal d := by omega
        simp [h, h2]
    · show (!hexLt r d) = decide (bigEndianVal d ≤ bigEndianVal r)
      rw [hexLt_eq_decide r d hlen.symm hr hd]
      by_cases h : bigEndianVal r < bigEndianVal d
      · have h2 : ¬bigEndianVal d ≤ bigEndianVal r := by omega
        simp [h, h2]
      · have h2 : bigEndianVal d ≤ bigEndianVal r := by omega
        simp [h, h2]
    · show (d != r) = decide (bigEndianVal d ≠ bigEndianVal r)
      by_cases hdr : d = r
      · subst hdr
        simp
      · have hv : bigEndianVal d ≠ bigEndianVal r :=
          fun hv => hdr ((bigEndianVal_inj d r hlen hd hr).mp hv)
        simp [hdr, hv]
  · intro data p h
    rw [h]
    rfl
  · intro v hv
    simp [getFormattedHex, padNibsTo]
    omega
  · intro v x hv hx
    simp only [getFormattedHex, padNibsTo, List.mem_append, List.mem_replicate] at hx
    rcases hx with ⟨_, hx0⟩ | hxv
    · omega
    · exact hv x hxv

/-- Witness for C6 at two concrete 32-byte words. -/
theorem ruleComparisonsBigEndian_witness :
    evaluateRuleCondition (List.replicate 64 1) (List.replicate 64 2)
        ParamOperator.LESS_THAN
      = decide (bigEndianVal (List.replicate 64 1) < bigEndianVal (List.replicate 64 2)) :=
  (ruleComparisonsBigEndian.1 (List.replicate 64 1) (List.replicate 64 2)
    (by decide) (by decide) (by decide) (by decide)).2.2.1

/-- Replace every permission's `operation` tag (the replacement may depend
on the permission). -/
def setOp (f : Permission → Operation) (p : Permission) : Permission :=
  { p with operation := f p }

/-- Whether an `Except` computation succeeded. -/
def exceptIsOk {ε α : Type} : Except ε α → Bool
  | .ok _ => true
  | .error _ => false

theorem filterByOperation_call (ps : List Permission) :
    filterByOperation ps Operation.Call = ps := by
  induction ps with
  | nil => rfl
  | cons p ps ih =>
    simp only [filterByOperation, List.filter_cons] at ih ⊢
    simp [ih]

theorem filter_map_of_comp (g : Permission → Permission) (q : Permission → Bool)
    (h : ∀ p, q (g p) = q p) (ps : List Permission) :
    (ps.map g).filter q = (ps.filter q).map g := by
  induction ps with
  | nil => rfl
  | cons p ps ih =>
    simp only [List.map_cons, List.filter_cons, h p]
    cases hq : q p <;> simp [ih]

theorem find_map_of_comp (g : Permission → Permission) (q : Permission → Bool)
    (h : ∀ p, q (g p) = q p) (ps : List Permission) :
    (ps.map g).find? q = (ps.find? q).map g := by
  induction ps with
  | nil => rfl
  | cons p ps ih =>
    simp only [List.map_cons, List.find?_cons, h p]
    cases hq : q p <;> simp [ih]

theorem insert_map_setOp (f : Permission → Operation) (p : Permission)
    (l : List Permission) :
    insertByValueLimitDesc (setOp f p) (l.map (setOp f))
      = (insertByValueLimitDesc p l).map (setOp f) := by
  induction l with
  | nil => rfl
  | cons q qs ih =>
    show (if q.valueLimit < p.valueLimit then _ else _) = _
    by_cases h : q.valueLimit < p.valueLimit
    · simp only [if_pos h, insertByValueLimitDesc, if_pos h, List.map_cons]
    · simp only [if_neg h, insertByValueLimitDesc, if_neg h, List.map_cons, ih]

theorem sort_map_setOp (f : Permission → Operation) (l : List Permission) :
    sortByValueLimitDesc (l.map (setOp f)) = (sortByValueLimitDesc l).map (setOp f) := by
  induction l with
  | nil => rfl
  | cons p ps ih =>
    simp only [List.map_cons, sortByValueLimitDesc, ih, insert_map_setOp]

theorem findPermissionByRule_map_setOp (f : Permission → Operation)
    (ps : List Permission) (d : Hexs) :
    findPermissionByRule (ps.map (setOp f)) d
      = (findPermissionByRule ps d).map (setOp f) :=
  find_map_of_comp (setOp f) (fun p => rulesPass d p.rules) (fun _ => rfl) ps

theorem isEmpty_map_perm (g : Permission → Permission) (l : List Permission) :
    (l.map g).isEmpty = l.isEmpty := by
  cases l <;> rfl

theorem matchTriple_setOp (f : Permission → Operation) (ps : List Permission)
    (t : Addr) (d : Hexs) (v : Nat) :
    matchTriple (ps.map (setOp f)) t d v = (matchTriple ps t d v).map (setOp f) := by
  simp only [matchTriple]
  rw [isEmpty_map_perm]
  by_cases h0 : ps.isEmpty
  · simp [h0]
  · rw [if_neg h0, if_neg h0]
    simp only [filterBySignature,
      filter_map_of_comp (setOp f)
        (fun permission => permission.target == t || permission.target == zeroAddress)
        (fun _ => rfl),
      filter_map_of_comp (setOp f)
        (fun permission => permission.sig == List.take 8 d) (fun _ => rfl),
      filter_map_of_comp (setOp f)
        (fun permission => decide (v ≤ permission.valueLimit)) (fun _ => rfl),
      filterByOperation_call, isEmpty_map_perm, sort_map_setOp,
      findPermissionByRule_map_setOp]
    split_ifs <;> simp

theorem sequenceOptions_map_setOp (f : Permission → Operation)
    (l : List (Option Permission)) :
    sequenceOptions (l.map (Option.map (setOp f)))
      = (sequenceOptions l).map (List.map (setOp f)) := by
  induction l with
  | nil => rfl
  | cons x xs ih =>
    cases x with
    | none => rfl
    | some p =>
      simp only [List.map_cons, Option.map_some, sequenceOptions, ih]
      cases sequenceOptions xs <;> simp

theorem filterPermissions_setOp (f : Permission → Operation) (ps : List Permission)
    (ts : List Addr) (ds : List Hexs) (vs : List Nat) :
    filterPermissions (ps.map (setOp f)) ts ds vs
      = (filterPermissions ps ts ds vs).map (List.map (setOp f)) := by
  unfold filterPermissions
  split
  · rfl
  · have hmap : (zip3 ts ds vs).map
        (fun tdv => matchTriple (ps.map (setOp f)) tdv.1 tdv.2.1 tdv.2.2)
        = ((zip3 ts ds vs).map fun tdv => matchTriple ps tdv.1 tdv.2.1 tdv.2.2).map
            (Option.map (setOp f)) := by
      rw [List.map_map]
      exact List.map_congr_left fun tdv _ => matchTriple_setOp f ps tdv.1 tdv.2.1 tdv.2.2
    rw [hmap, sequenceOptions_map_setOp]

theorem findMatchingPermissions_setOp_isSome (f : Permission → Operation)
    (ps : List Permission) (cd : DecodedCallData) :
    (findMatchingPermissions (ps.map (setOp f)) cd).isSome
      = (findMatchingPermissions ps cd).isSome := by
  cases cd with
  | execute t v d =>
    simp only [findMatchingPermissions, filterPermissions_setOp]
    cases filterPermissions ps [t] [d] [v] with
    | none => rfl
    | some l => cases l <;> simp
  | executeBatch calls =>
    simp only [findMatchingPermissions, filterPermissions_setOp]
    cases filterPermissions ps (calls.map fun c => c.target) (calls.map fun c => c.data)
        (calls.map fun c => c.value) <;> simp
  | other => rfl

theorem proofData_isOk_eq (keccak : Hexs → Hexs) (ep : Permission → Hexs)
    (ewp : Matched → Hexs) (ps : List Permission) (cd : DecodedCallData) :
    exceptIsOk (getEncodedPermissionProofData keccak ep ewp ps cd)
      = !((findMatchingPermissions ps cd).isNone
          && !(merkleRoot keccak ep ps == zero32)) := by
  simp only [getEncodedPermissionProofData]
  by_cases h : ((findMatchingPermissions ps cd).isNone
      && !(merkleRoot keccak ep ps == zero32)) = true
  · rw [if_pos h, h]
    rfl
  · have hb : ((findMatchingPermissions ps cd).isNone
        && !(merkleRoot keccak ep ps == zero32)) = false := by
      cases hx : ((findMatchingPermissions ps cd).isNone
          && !(merkleRoot keccak ep ps == zero32))
      · rfl
      · exact absurd hx h
    rw [if_neg h, hb]
    cases findMatchingPermissions ps cd with
    | none => rfl
    | some m =>
      dsimp only
      split <;> rfl

/-- C7: the operation-filter stage never removes a candidate when the
requested operation is `Call` (which is what every request is mapped to),
and replacing every permission's `operation` tag commutes with the whole
matcher — the same permissions (up to the replaced tag) match, matching
succeeds or fails identically, and the proof-data stage succeeds
identically provided the tag change does not flip the Merkle root's
zero-sentinel status (keccak makes that impossible in practice). -/
theorem operationTagIrrelevant :
    (∀ ps, filterByOperation ps Operation.Call = ps)
    ∧ (∀ f ps ts ds vs, filterPermissions (ps.map (setOp f)) ts ds vs
        = (filterPermissions ps ts ds vs).map (List.map (setOp f)))
    ∧ (∀ f ps cd, (findMatchingPermissions (ps.map (setOp f)) cd).isSome
        = (findMatchingPermissions ps cd).isSome)
    ∧ (∀ f ps cd keccak (ep ep2 : Permission → Hexs) (ewp ewp2 : Matched → Hexs),
        ((merkleRoot keccak ep2 (ps.map (setOp f)) = zero32)
          ↔ (merkleRoot keccak ep ps = zero32)) →
        exceptIsOk (getEncodedPermissionProofData keccak ep2 ewp2 (ps.map (setOp f)) cd)
          = exceptIsOk (getEncodedPermissionProofData keccak ep ewp ps cd)) := by
  refine ⟨filterByOperation_call, filterPermissions_setOp,
    findMatchingPermissions_setOp_isSome, ?_⟩
  intro f ps cd keccak ep ep2 ewp ewp2 hroot
  rw [proofData_isOk_eq, proofData_isOk_eq]
  have hisSome := findMatchingPermissions_setOp_isSome f ps cd
  have hisNone : (findMatchingPermissions (ps.map (setOp f)) cd).isNone
      = (findMatchingPermissions ps cd).isNone := by
    cases hxa : findMatchingPermissions (ps.map (setOp f)) cd <;>
      cases hxb : findMatchingPermissions ps cd <;>
        simp [hxa, hxb] at hisSome ⊢
  have hrootb : (merkleRoot keccak ep2 (ps.map (setOp f)) == zero32)
      = (merkleRoot keccak ep ps == zero32) := by
    by_cases h : merkleRoot keccak ep ps = zero32
    · simp [h, hroot.mpr h]
    · have h2 : merkleRoot keccak ep2 (ps.map (setOp f)) ≠ zero32 :=
        fun hc => h (hroot.mp hc)
      simp [h, h2]
  rw [hisNone, hrootb]

/-- Witness for C7: retagging the only permission as `DelegateCall` leaves
the proof-data stage's success unchanged for a concrete configuration. -/
theorem operationTagIrrelevant_witness :
    exceptIsOk (getEncodedPermissionProofData (fun _ => List.replicate 64 1)
        (fun _ => []) (fun _ => [])
        ([Permission.mk 5 0 [] (List.replicate 8 0) 0 ⟨0, 0, 0⟩ Operation.Call].map
          (setOp fun _ => Operation.DelegateCall)) DecodedCallData.other)
      = exceptIsOk (getEncodedPermissionProofData (fun _ => List.replicate 64 1)
        (fun _ => []) (fun _ => [])
        [Permission.mk 5 0 [] (List.replicate 8 0) 0 ⟨0, 0, 0⟩ Operation.Call]
        DecodedCallData.other) :=
  operationTagIrrelevant.2.2.2 (fun _ => Operation.DelegateCall)
    [Permission.mk 5 0 [] (List.replicate 8 0) 0 ⟨0, 0, 0⟩ Operation.Call]
    DecodedCallData.other (fun _ => List.replicate 64 1)
    (fun _ => []) (fun _ => []) (fun _ => []) (fun _ => [])
    (by decide)

/-- A lower-case hex digit character code. -/
def isLowerHexCode (c : Nat) : Prop :=
  (48 ≤ c ∧ c ≤ 57) ∨ (97 ≤ c ∧ c ≤ 102)

theorem hexCharVal_lt_16 (c : Nat) (h : isLowerHexCode c) : hexCharVal c < 16 := by
  rcases h with ⟨h1, h2⟩ | ⟨h1, h2⟩ <;> simp [hexCharVal] <;> split_ifs <;> omega

theorem hexDigitCode_hexCharVal (c : Nat) (h : isLowerHexCode c) :
    hexDigitCode (hexCharVal c) = c := by
  rcases h with ⟨h1, h2⟩ | ⟨h1, h2⟩ <;>
    simp [hexCharVal, hexDigitCode] <;> split_ifs <;> omega

theorem isHexDigitCode_of_lower (c : Nat) (h : isLowerHexCode c) :
    isHexDigitCode c = true := by
  rcases h with ⟨h1, h2⟩ | ⟨h1, h2⟩ <;> simp [isHexDigitCode] <;> omega

theorem hexCodesToNat_append_singleton (ds : List Nat) (c : Nat) :
    hexCodesToNat (ds ++ [c]) = 16 * hexCodesToNat ds + hexCharVal c := by
  simp [hexCodesToNat, List.foldl_append]

theorem natToHexCodes_hexCodesToNat (ds : List Nat)
    (h : ∀ c ∈ ds, isLowerHexCode c) :
    natToHexCodes ds.length (hexCodesToNat ds) = ds := by
  induction ds using List.reverseRecOn with
  | nil => rfl
  | append_singleton ds c ih =>
    have hc : isLowerHexCode c := h c (by simp)
    have hds : ∀ x ∈ ds, isLowerHexCode x := fun x hx => h x (by simp [hx])
    have hval : hexCharVal c < 16 := hexCharVal_lt_16 c hc
    rw [hexCodesToNat_append_singleton]
    have hlen : (ds ++ [c]).length = ds.length + 1 := by simp
    rw [hlen]
    simp only [natToHexCodes]
    have hdiv : (16 * hexCodesToNat ds + hexCharVal c) / 16 = hexCodesToNat ds := by
      omega
    have hmod : (16 * hexCodesToNat ds + hexCharVal c) % 16 = hexCharVal c := by
      omega
    rw [hdiv, hmod, ih hds, hexDigitCode_hexCharVal c hc]

theorem hexCodesToNat_pair (c1 c2 : Nat) :
    hexCodesToNat [c1, c2] = 16 * hexCharVal c1 + hexCharVal c2 := by
  simp [hexCodesToNat]

theorem pair_of_value (c1 c2 : Nat) (h1 : isLowerHexCode c1) (h2 : isLowerHexCode c2)
    (v1 v2 : Nat) (_hv1 : v1 < 16) (hv2 : v2 < 16)
    (hval : hexCodesToNat [c1, c2] = 16 * v1 + v2) :
    c1 = hexDigitCode v1 ∧ c2 = hexDigitCode v2 := by
  rw [hexCodesToNat_pair] at hval
  have hb1 := hexCharVal_lt_16 c1 h1
  have hb2 := hexCharVal_lt_16 c2 h2
  have he1 : hexCharVal c1 = v1 := by omega
  have he2 : hexCharVal c2 = v2 := by omega
  constructor
  · rw [← he1, hexDigitCode_hexCharVal c1 h1]
  · rw [← he2, hexDigitCode_hexCharVal c2 h2]

theorem list_of_length_two (l : List Nat) (h : l.length = 2) :
    ∃ a b, l = [a, b] := by
  match l, h with
  | [a, b], _ => exact ⟨a, b, rfl⟩

theorem hexToSignature_wellFormed (body : List Nat) (hlen : body.length = 130)
    (hr0 : 0 < hexCodesToNat (body.take 64))
    (hrN : hexCodesToNat (body.take 64) < secpN)
    (hs0 : 0 < hexCodesToNat ((body.drop 64).take 64))
    (hsN : hexCodesToNat ((body.drop 64).take 64) < secpN) :
    hexToSignature (48 :: 120 :: body)
      = .ok (hexCodesToNat (body.take 64), hexCodesToNat ((body.drop 64).take 64),
          hexCodesToNat (body.drop 128)) := by
  have hdrop2 : (48 :: 120 :: body).drop 2 = body := rfl
  have hclen : (body.take 128).length = 128 := by
    rw [List.length_take]
    omega
  have htt : (body.take 128).take 64 = body.take 64 := by
    rw [List.take_take]
    congr 1
  have htd : (body.take 128).drop 64 = (body.drop 64).take 64 := by
    rw [List.drop_take]
  have hv : (48 :: 120 :: body).drop 130 = body.drop 128 := by
    rw [show (130 : Nat) = 2 + 128 from rfl, ← List.drop_drop, hdrop2]
  have hvne : (body.drop 128).isEmpty = false := by
    have h2 : (body.drop 128).length = 2 := by
      rw [List.length_drop]
      omega
    obtain ⟨a, b, hab⟩ := list_of_length_two _ h2
    rw [hab]
    rfl
  have hcond : (decide (hexCodesToNat (body.take 64) = 0)
      || decide (secpN ≤ hexCodesToNat (body.take 64))
      || decide (hexCodesToNat ((body.drop 64).take 64) = 0)
      || decide (secpN ≤ hexCodesToNat ((body.drop 64).take 64))) = false := by
    simp
    omega
  simp only [hexToSignature, hdrop2, htt, htd, hv, hclen]
  rw [if_neg (by omega : ¬(128 ≠ 128))]
  rw [if_neg (by rw [hcond]; simp : ¬((decide (hexCodesToNat (body.take 64) = 0)
      || decide (secpN ≤ hexCodesToNat (body.take 64))
      || decide (hexCodesToNat ((body.drop 64).take 64) = 0)
      || decide (secpN ≤ hexCodesToNat ((body.drop 64).take 64))) = true))]
  rw [if_neg (by rw [hvne]; simp : ¬((body.drop 128).isEmpty = true))]

theorem signatureToHex_inRange (r s v : Nat) (hr0 : 0 < r) (hrN : r < secpN)
    (hs0 : 0 < s) (hsN : s < secpN) :
    signatureToHex r s v
      = .ok (48 :: 120 :: (natToHexCodes 64 r ++ natToHexCodes 64 s
          ++ natToHexMinCodes v)) := by
  unfold signatureToHex
  rw [if_neg (fun hc => by
    simp only [Bool.or_eq_true, decide_eq_true_eq] at hc
    omega)]

theorem fixSignedData_reduces (body : List Nat) (hlen : body.length = 130)
    (hhex : isHexStr (48 :: 120 :: body) = true)
    (hr0 : 0 < hexCodesToNat (body.take 64))
    (hrN : hexCodesToNat (body.take 64) < secpN)
    (hs0 : 0 < hexCodesToNat ((body.drop 64).take 64))
    (hsN : hexCodesToNat ((body.drop 64).take 64) < secpN) :
    fixSignedData (48 :: 120 :: body)
      = signatureToHex (hexCodesToNat (body.take 64))
          (hexCodesToNat ((body.drop 64).take 64))
          (if (decide (hexCodesToNat (body.drop 128) = 0)
              || decide (hexCodesToNat (body.drop 128) = 1)) = true
            then hexCodesToNat (body.drop 128) + 27
            else hexCodesToNat (body.drop 128)) := by
  have h1 : fixSignedData (48 :: 120 :: body)
      = fixSignedDataChecked (48 :: 120 :: body) := by
    unfold fixSignedData
    rw [if_pos hhex]
  rw [h1]
  unfold fixSignedDataChecked
  rw [hhex, hexToSignature_wellFormed body hlen hr0 hrN hs0 hsN]
  simp only [Bool.not_true]
  rw [if_neg (by simp : ¬(false = true))]

/-- C9: on a well-formed lower-case 65-byte signature hex string,
`fixSignedData` rewrites a recovery id of 0 or 1 to 27/28 (re-encoding
`r` and `s` identically) and passes 27/28 through unchanged; on input
that is not hex even after prefixing "0x", it throws the invalid-data
error. -/
theorem fixSignedDataNormalization :
    (∀ body : List Nat, body.length = 130 → (∀ c ∈ body, isLowerHexCode c) →
      0 < hexCodesToNat (body.take 64) → hexCodesToNat (body.take 64) < secpN →
      0 < hexCodesToNat ((body.drop 64).take 64) →
      hexCodesToNat ((body.drop 64).take 64) < secpN →
      ((hexCodesToNat (body.drop 128) = 27 ∨ hexCodesToNat (body.drop 128) = 28) →
        fixSignedData (48 :: 120 :: body) = .ok (48 :: 120 :: body))
      ∧ (hexCodesToNat (body.drop 128) = 0 →
        fixSignedData (48 :: 120 :: body)
          = .ok (48 :: 120 :: (body.take 128 ++ [49, 98])))
      ∧ (hexCodesToNat (body.drop 128) = 1 →
        fixSignedData (48 :: 120 :: body)
          = .ok (48 :: 120 :: (body.take 128 ++ [49, 99]))))
    ∧ (∀ t : List Nat, isHexStr t = false → isHexStr (48 :: 120 :: t) = false →
        fixSignedData t = .error SKError.invalidSignedData) := by
  constructor
  · intro body hlen hlow hr0 hrN hs0 hsN
    have hhex : isHexStr (48 :: 120 :: body) = true := by
      simp only [isHexStr, List.all_eq_true]
      intro c hc
      exact isHexDigitCode_of_lower c (hlow c hc)
    have hstep := fixSignedData_reduces body hlen hhex hr0 hrN hs0 hsN
    have hl64 : (body.take 64).length = 64 := by
      rw [List.length_take]
      omega
    have hl64s : ((body.drop 64).take 64).length = 64 := by
      rw [List.length_take, List.length_drop]
      omega
    have hrrt : natToHexCodes 64 (hexCodesToNat (body.take 64)) = body.take 64 := by
      have h := natToHexCodes_hexCodesToNat (body.take 64)
        (fun c hc => hlow c (List.mem_of_mem_take hc))
      rw [hl64] at h
      exact h
    have hsrt : natToHexCodes 64 (hexCodesToNat ((body.drop 64).take 64))
        = (body.drop 64).take 64 := by
      have h := natToHexCodes_hexCodesToNat ((body.drop 64).take 64)
        (fun c hc => hlow c (List.mem_of_mem_drop (List.mem_of_mem_take hc)))
      rw [hl64s] at h
      exact h
    have htake128 : body.take 128 = body.take 64 ++ (body.drop 64).take 64 := by
      rw [show (128 : Nat) = 64 + 64 from rfl, List.take_add]
    have hvlen : (body.drop 128).length = 2 := by
      rw [List.length_drop]
      omega
    obtain ⟨c1, c2, hc12⟩ := list_of_length_two _ hvlen
    have hc1low : isLowerHexCode c1 :=
      hlow c1 (List.mem_of_mem_drop (by rw [hc12]; simp))
    have hc2low : isLowerHexCode c2 :=
      hlow c2 (List.mem_of_mem_drop (by rw [hc12]; simp))
    refine ⟨?_, ?_, ?_⟩
    · intro hv
      rw [hstep]
      rcases hv with hv | hv
      · rw [hv]
        norm_num
        rw [signatureToHex_inRange _ _ _ hr0 hrN hs0 hsN, hrrt, hsrt]
        obtain ⟨he1, he2⟩ := pair_of_value c1 c2 hc1low hc2low 1 11
          (by omega) (by omega) (by rw [← hc12, hv])
        have hfull : body.take 128 ++ [49, 98] = body := by
          have h0 := List.take_append_drop 128 body
          rw [hc12, he1, he2] at h0
          exact h0
        rw [show natToHexMinCodes 27 = [49, 98] from rfl, ← htake128, hfull]
      · rw [hv]
        norm_num
        rw [signatureToHex_inRange _ _ _ hr0 hrN hs0 hsN, hrrt, hsrt]
        obtain ⟨he1, he2⟩ := pair_of_value c1 c2 hc1low hc2low 1 12
          (by omega) (by omega) (by rw [← hc12, hv])
        have hfull : body.take 128 ++ [49, 99] = body := by
          have h0 := List.take_append_drop 128 body
          rw [hc12, he1, he2] at h0
          exact h0
        rw [show natToHexMinCodes 28 = [49, 99] from rfl, ← htake128, hfull]
    · intro hv
      rw [hstep, hv]
      norm_num
      rw [signatureToHex_inRange _ _ _ hr0 hrN hs0 hsN, hrrt, hsrt]
      rw [show natToHexMinCodes 27 = [49, 98] from rfl, ← htake128]
    · intro hv
      rw [hstep, hv]
      norm_num
      rw [signatureToHex_inRange _ _ _ hr0 hrN hs0 hsN, hrrt, hsrt]
      rw [show natToHexMinCodes 28 = [49, 99] from rfl, ← htake128]
  · intro t h1 h2
    unfold fixSignedData
    rw [if_neg (show ¬(isHexStr t = true) by rw [h1]; simp)]
    unfold fixSignedDataChecked
    rw [if_pos (show (!isHexStr (48 :: 120 :: t)) = true by rw [h2]; rfl)]

instance : DecidablePred isLowerHexCode := fun c => by
  unfold isLowerHexCode
  infer_instance

/-- A well-formed raw signature body: r = 1, s = 1, v = 27 (130 lower-case
hex character codes). -/
def c9Body : List Nat :=
  List.replicate 63 48 ++ [49] ++ (List.replicate 63 48 ++ [49]) ++ [49, 98]

set_option maxRecDepth 8000 in
/-- Witness for C9: the concrete v = 27 signature passes through unchanged,
and a non-hex input ("x") throws the invalid-data error. -/
theorem fixSignedDataNormalization_witness :
    fixSignedData (48 :: 120 :: c9Body) = .ok (48 :: 120 :: c9Body)
    ∧ fixSignedData [120] = .error SKError.invalidSignedData :=
  ⟨(fixSignedDataNormalization.1 c9Body (by decide) (by decide) (by decide) (by decide)
      (by decide) (by decide)).1 (Or.inl (by decide)),
    fixSignedDataNormalization.2 [120] (by decide) (by decide)⟩

/-- Witness for C2: with zero permissions, the proof segment for a
concrete call is the empty byte string and the root is the zero word. -/
theorem sessionKeyZeroPermissionsBypass_witness :
    getEncodedPermissionProofData (fun _ => List.replicate 64 1) (fun _ => [])
        (fun _ => []) [] (DecodedCallData.execute 5 7 [1, 2, 3]) = .ok []
    ∧ merkleRoot (fun _ => List.replicate 64 1) (fun _ => []) [] = zero32 :=
  ⟨sessionKeyZeroPermissionsBypass.2.2.1 (fun _ => List.replicate 64 1) (fun _ => [])
      (fun _ => []) (DecodedCallData.execute 5 7 [1, 2, 3]),
    (sessionKeyZeroPermissionsBypass.2.1 (fun _ => List.replicate 64 1) (fun _ => [])).2⟩
